import Mathlib

/-!
Shallow embedding of `src/trunk/Integrator/src/CPodesIntegratorRep.cpp`:
the CPodes integrator's state-bridge callbacks (`CPodesSystemImpl`), the
interpolated-state construction (`createInterpolatedState`) and the stepping
state machine (`stepTo`).

Times and state vectors are modelled over `ℚ` (the C++ `Real` is used purely
arithmetically here; no floating-point-specific behavior is involved in the
control logic).  The external CPodes solver and the simulated `System` are
opaque collaborators in the source; they are modelled as oracles
(`SolverOracle`, `SysModel`) whose answers the embedded code consumes exactly
where the source calls them.
-/

set_option autoImplicit false
set_option linter.unusedVariables false

namespace CPodesIntegrator

/-- A continuous-state vector (`SimTK::Vector`). -/
abbrev Vec := List ℚ

/-- The modelled part of a `SimTK::State` snapshot: its time, its continuous
state vector `y`, and a stand-in `d` for the discrete (non-continuous)
content that `createInterpolatedState` copies wholesale from the advanced
state. -/
structure SimState where
  time : ℚ
  y : Vec
  d : ℚ
deriving DecidableEq, Repr

/-- Computation stages of the simulated system that the callbacks force
(`Stage::Position`, `Stage::Velocity`, `Stage::Acceleration`). -/
inductive Stage where
  | Position
  | Velocity
  | Acceleration
deriving DecidableEq, Repr

namespace CPodes

/-- Code `CPodes::Success` (0): normal return of a step or callback. -/
def Success : Int := 0

/-- Code `CPodes::TstopReturn` (positive informational return): the configured
stop time was reached. -/
def TstopReturn : Int := 1

/-- Code `CPodes::RootReturn` (positive informational return): a root of an
event-trigger function was located. -/
def RootReturn : Int := 2

/-- Code `CPodes::TooMuchWork` (negative): the internal step-count budget was
exhausted before reaching the requested time. -/
def TooMuchWork : Int := -1

/-- Code `CPodes::RecoverableError`: the positive code a callback returns to ask
the solver to retry (shrink the step, re-iterate) instead of aborting.
Its only relevant property is being distinct from `Success`. -/
def RecoverableError : Int := 9999

/-- The `CPodes::StepMode` selection: the four stepping modes selected by `stepTo` from
the user's single-step and final-time settings. -/
inductive StepMode where
  | Normal
  | OneStep
  | NormalTstop
  | OneStepTstop
deriving DecidableEq, Repr

end CPodes

/-- The `EventStatus::EventTrigger` transition classifications.  The stepping
logic only ever assigns `AnySignChange`. -/
inductive EventTrigger where
  | PositiveToNegative
  | NegativeToPositive
  | AnySignChange
deriving DecidableEq, Repr

/-- The record passed to `setTriggeredEvents(previousStartTime, tret,
eventIds, eventTimes, eventTransitions)` when a root return is delivered. -/
structure TriggeredEvents where
  tLow : ℚ
  tHigh : ℚ
  eventIds : List ℕ
  eventTimes : List ℚ
  eventTransitions : List EventTrigger
deriving DecidableEq, Repr

/-- The `IntegratorRep` step-communication statuses set by `stepTo`. -/
inductive StepCommunicationStatus where
  | StepHasBeenReturnedNoEvent
  | StepHasBeenReturnedWithEvent
  | FinalTimeHasBeenReturned
deriving DecidableEq, Repr

/-- The type `Integrator::SuccessfulStepStatus`: the outcomes `stepTo` can return. -/
inductive SuccessfulStepStatus where
  | ReachedReportTime
  | ReachedScheduledEvent
  | ReachedEventTrigger
  | ReachedStepLimit
  | EndOfSimulation
  | TimeHasAdvanced
  | StartOfContinuousInterval
deriving DecidableEq, Repr

/-- The `Integrator::TerminationReason` values touched by this file. -/
inductive TerminationReason where
  | ReachedFinalTime
  | NotTerminated
deriving DecidableEq, Repr

/-- The integrator-side state mutated by `stepTo` and read by the callbacks:
the advanced and interpolated snapshots, the pending-return record
(`pendingReturnCode`, `previousTimeReturned`, `savedY`), bookkeeping flags,
and `nCalls`, a counter of `cpodes->step()` invocations used to index the
solver oracle. -/
structure IntegState where
  advanced : SimState
  interp : SimState
  useInterpolatedState : Bool
  pendingReturnCode : Int
  previousTimeReturned : ℚ
  previousStartTime : ℚ
  savedY : Vec
  startOfContinuousInterval : Bool
  stepCommunicationStatus : StepCommunicationStatus
  terminationReason : TerminationReason
  triggeredEvents : Option TriggeredEvents
  constraintTol : ℚ
  nCalls : ℕ
deriving DecidableEq, Repr

/-- The simulated `System` as seen through the callbacks: whether forcing a
realization stage at `(t, y)` succeeds or raises, and the derived vectors
read afterwards.  Partial operations return `none` where the C++ throws. -/
structure SysModel where
  realizeOk : Stage → ℚ → Vec → Bool
  ydot : ℚ → Vec → Vec
  yerr : ℚ → Vec → Vec
  events : ℚ → Vec → Vec
  calcYUnitWeights : ℚ → Vec → Option Vec
  calcYErrUnitTolerances : ℚ → Vec → Option Vec
  projectY : ℚ → Vec → ℚ → Vec → Vec → Vec → Option (Vec × Vec)

/-- Componentwise vector subtraction, for `ycorr = advanced.getY() - y`. -/
def vecSub (a b : Vec) : Vec := List.zipWith (fun x y => x - y) a b

/-- Callback `CPodesSystemImpl::explicitODE`: copy the advanced state, write `(t,y)`
into the copy, realize to `Stage::Acceleration` inside a try/catch, and
return `ydot`.  The result triple is (status code, the caller's `ydot`
buffer after the call, the integrator state after the call).  The C++ takes
a value copy of the advanced state (`State advanced = integ.updAdvancedState()`),
so the integrator state is returned unchanged. -/
def explicitODE (sys : SysModel) (integ : IntegState) (t : ℚ) (y : Vec)
    (ydotBuf : Vec) : Int × Vec × IntegState :=
  let advanced : SimState := { integ.advanced with y := y, time := t }
  if sys.realizeOk Stage.Acceleration advanced.time advanced.y then
    (CPodes.Success, sys.ydot advanced.time advanced.y, integ)
  else
    (CPodes.RecoverableError, ydotBuf, integ)

/-- Callback `CPodesSystemImpl::constraint`: same write pattern, realize to
`Stage::Velocity`, return `yerr`. -/
def constraint (sys : SysModel) (integ : IntegState) (t : ℚ) (y : Vec)
    (yerrBuf : Vec) : Int × Vec × IntegState :=
  let advanced : SimState := { integ.advanced with y := y, time := t }
  if sys.realizeOk Stage.Velocity advanced.time advanced.y then
    (CPodes.Success, sys.yerr advanced.time advanced.y, integ)
  else
    (CPodes.RecoverableError, yerrBuf, integ)

/-- The body of `CPodesSystemImpl::project`'s try block: realize to
`Stage::Position`, compute weights and tolerances, and ask the system to
project; `none` exactly when any of those raises. -/
def projectAttempt (sys : SysModel) (tol : ℚ) (t : ℚ) (y : Vec) (err : Vec) :
    Option (Vec × Vec) :=
  if sys.realizeOk Stage.Position t y then
    match sys.calcYUnitWeights t y with
    | none => none
    | some yUnitWeights =>
      match sys.calcYErrUnitTolerances t y with
      | none => none
      | some unitTolerances =>
        sys.projectY t y tol yUnitWeights unitTolerances err
  else
    none

/-- Callback `CPodesSystemImpl::project`: copy the advanced state, write `(t,y)`,
attempt the projection, and on success return the correction
`ycorr = advanced.getY() - y` and the adjusted error estimate.  The result
is (status code, `ycorr` buffer, `err` buffer, integrator state). -/
def project (sys : SysModel) (integ : IntegState) (t : ℚ) (y : Vec)
    (ycorrBuf : Vec) (epsProj : ℚ) (errBuf : Vec) :
    Int × Vec × Vec × IntegState :=
  let advanced : SimState := { integ.advanced with y := y, time := t }
  let tol := integ.constraintTol
  match projectAttempt sys tol advanced.time advanced.y errBuf with
  | none => (CPodes.RecoverableError, ycorrBuf, errBuf, integ)
  | some (yProj, errOut) => (CPodes.Success, vecSub yProj y, errOut, integ)

/-- Callback `CPodesSystemImpl::root`: write `(t,y)` into a copy, realize to
`Stage::Acceleration`, return the event-trigger vector.  `yp` is accepted
and ignored, as in the source. -/
def root (sys : SysModel) (integ : IntegState) (t : ℚ) (y : Vec) (yp : Vec)
    (goutBuf : Vec) : Int × Vec × IntegState :=
  let advanced : SimState := { integ.advanced with y := y, time := t }
  if sys.realizeOk Stage.Acceleration advanced.time advanced.y then
    (CPodes.Success, sys.events advanced.time advanced.y, integ)
  else
    (CPodes.RecoverableError, goutBuf, integ)

/-- One answer of `cpodes->step(tMax, &tret, yout, ypout, mode)`: the
returned time, the committed vector, and the raw result code. -/
structure SolverStep where
  tret : ℚ
  yout : Vec
  res : Int
deriving DecidableEq, Repr

/-- The external CPodes solver as an oracle.  `stepRes n tMax mode` is the
answer of the `(n+1)`-st `cpodes->step` call of the run; `dky n t` is the
dense-output vector `cpodes->getDky(t, 0, ·)` available after `n` step
calls; `rootInfo n` is `cpodes->getRootInfo` after `n` step calls. -/
structure SolverOracle where
  stepRes : ℕ → ℚ → CPodes.StepMode → SolverStep
  dky : ℕ → ℚ → Vec
  rootInfo : ℕ → List Int

/-- Run configuration read by `stepTo`: the user's final-time setting
(`-1` = unset), the return-every-internal-step switch (`1` = on), the
number of registered event triggers (`getAdvancedState().getNEvents()`,
fixed at `rootInit`), and the event-identification policy. -/
structure Config where
  userFinalTime : ℚ
  userReturnEveryInternalStep : Int
  nevents : ℕ
  /-- Modelled from the spec: `IntegratorRep::findEventIds`, the caller's
  event-identification policy that filters/remaps the raw trigger indices
  into the event ids delivered to the caller.  Its implementation is not
  part of this file. -/
  findEventIds : List ℕ → List ℕ

/-- The `CPodes::StepMode` selection of `stepTo`: a hard stop time is
enforced iff `userFinalTime` is set, and control returns after every
internal step iff `userReturnEveryInternalStep == 1`. -/
def chooseStepMode (cfg : Config) : CPodes.StepMode :=
  if cfg.userFinalTime ≠ -1 then
    if cfg.userReturnEveryInternalStep = 1 then CPodes.StepMode.OneStepTstop
    else CPodes.StepMode.NormalTstop
  else
    if cfg.userReturnEveryInternalStep = 1 then CPodes.StepMode.OneStep
    else CPodes.StepMode.Normal

/-- The overwrite `if (scheduledEventTime <= 0) scheduledEventTime = Infinity`:
a non-positive scheduled event time means "none", modelled as `none`
standing for `+Infinity`. -/
def effectiveEventTime (scheduledEventTime : ℚ) : Option ℚ :=
  if scheduledEventTime ≤ 0 then none else some scheduledEventTime

/-- Comparison `a <= e` where `e` is a possibly-infinite event time. -/
def qle (a : ℚ) (e : Option ℚ) : Prop :=
  match e with
  | none => True
  | some b => a ≤ b

/-- Comparison `a >= e` where `e` is a possibly-infinite event time (`a` is finite, so
this is false against `Infinity`). -/
def qge (a : ℚ) (e : Option ℚ) : Prop :=
  match e with
  | none => False
  | some b => b ≤ a

/-- Comparison `a > e` where `e` is a possibly-infinite event time. -/
def qgt (a : ℚ) (e : Option ℚ) : Prop :=
  match e with
  | none => False
  | some b => b < a

instance (a : ℚ) (e : Option ℚ) : Decidable (qle a e) :=
  match e with
  | none => Decidable.isTrue True.intro
  | some b => inferInstanceAs (Decidable (a ≤ b))

instance (a : ℚ) (e : Option ℚ) : Decidable (qge a e) :=
  match e with
  | none => Decidable.isFalse id
  | some b => inferInstanceAs (Decidable (b ≤ a))

instance (a : ℚ) (e : Option ℚ) : Decidable (qgt a e) :=
  match e with
  | none => Decidable.isFalse id
  | some b => inferInstanceAs (Decidable (b < a))

/-- The ceiling `tMax = std::min(reportTime, scheduledEventTime)` after the infinity
overwrite: the ceiling toward which the solver is asked to step. -/
def stepCeiling (reportTime scheduledEventTime : ℚ) : ℚ :=
  match effectiveEventTime scheduledEventTime with
  | none => reportTime
  | some sev => min reportTime sev

/-- Function `CPodesIntegratorRep::createInterpolatedState(t)`: copy the advanced
state (picking up its discrete content), ask the solver's dense output for
the vector at `t`, and overwrite only the vector and the time. -/
def createInterpolatedState (env : SolverOracle) (s : IntegState) (t : ℚ) :
    SimState :=
  let advanced := s.advanced
  let interp := advanced
  let yout := env.dky s.nCalls t
  { interp with y := yout, time := t }

/-- The head of the `while (true)` loop body of `stepTo`: obtain
`(tret, res)` either from a fresh `cpodes->step` call (when
`pendingReturnCode == -1`) or by resuming the pending record (restoring
`savedY` when one was saved and clearing the record). -/
def acquireStep (env : SolverOracle) (tMax : ℚ) (mode : CPodes.StepMode)
    (s : IntegState) : ℚ × Int × IntegState :=
  if s.pendingReturnCode = -1 then
    let ss := env.stepRes s.nCalls tMax mode
    (ss.tret, ss.res,
      { s with previousStartTime := s.advanced.time,
               advanced := { s.advanced with y := ss.yout },
               previousTimeReturned := ss.tret,
               nCalls := s.nCalls + 1 })
  else
    let res := s.pendingReturnCode
    let tret := s.previousTimeReturned
    let s1 :=
      if s.savedY.length > 0 then
        { s with advanced := { s.advanced with y := s.savedY } }
      else s
    (tret, res, { s1 with pendingReturnCode := -1 })

/-- Outcome of one iteration of the `stepTo` loop body: return a status to
the caller, raise `Integrator::StepFailed` carrying a time, or go round the
loop again. -/
inductive IterOut where
  | ret (status : SuccessfulStepStatus) (s : IntegState)
  | fail (t : ℚ) (s : IntegState)
  | next (s : IntegState)
deriving Repr

/-- The integrator state carried by any `IterOut`. -/
def IterOut.state : IterOut → IntegState
  | .ret _ s => s
  | .fail _ s => s
  | .next s => s

/-- The commit `updAdvancedState().updTime() = tret` followed by
`realizeStateDerivatives(getAdvancedState())` (the realization has no
modelled field effect). -/
def commitTime (tret : ℚ) (s0 : IntegState) : IntegState :=
  { s0 with advanced := { s0.advanced with time := tret } }

/-- The overshoot check: if the returned time exceeds the ceiling,
synthesize the Interpolated State at the ceiling and raise the
interpolated-state-active flag; otherwise lower the flag. -/
def interpPhase (env : SolverOracle) (tMax tret : ℚ) (s : IntegState) :
    IntegState :=
  if tret > tMax then
    { s with useInterpolatedState := true,
             interp := createInterpolatedState env s tMax }
  else
    { s with useInterpolatedState := false }

/-- Resolution of the return code against the report / scheduled-event /
stop-time / root / single-step conditions, in source order, after the
error checks and the overshoot check. -/
def resolveReturn (env : SolverOracle) (cfg : Config) (reportTime : ℚ)
    (schedE : Option ℚ) (tret : ℚ) (res : Int) (s1 : IntegState) : IterOut :=
  if tret ≥ reportTime ∧ qle reportTime schedE then
    IterOut.ret SuccessfulStepStatus.ReachedReportTime
      { s1 with savedY := [],
                pendingReturnCode := res,
                stepCommunicationStatus :=
                  StepCommunicationStatus.StepHasBeenReturnedNoEvent }
  else if qge tret schedE then
    -- In this branch `schedE` is finite (`qge` is false against
    -- `Infinity`), so `schedE.getD 0` is the scheduled event time.
    if qgt tret schedE then
      IterOut.ret SuccessfulStepStatus.ReachedScheduledEvent
        { s1 with savedY := s1.advanced.y,
                  advanced :=
                    { s1.advanced with y := s1.interp.y, time := schedE.getD 0 },
                  pendingReturnCode := res,
                  stepCommunicationStatus :=
                    StepCommunicationStatus.StepHasBeenReturnedWithEvent }
    else
      IterOut.ret SuccessfulStepStatus.ReachedScheduledEvent
        { s1 with pendingReturnCode := res,
                  stepCommunicationStatus :=
                    StepCommunicationStatus.StepHasBeenReturnedWithEvent }
  else if res = CPodes.TstopReturn then
    IterOut.ret SuccessfulStepStatus.EndOfSimulation
      { s1 with stepCommunicationStatus :=
                  StepCommunicationStatus.FinalTimeHasBeenReturned,
                terminationReason := TerminationReason.ReachedFinalTime }
  else if res = CPodes.RootReturn then
    IterOut.ret SuccessfulStepStatus.ReachedEventTrigger
      { s1 with triggeredEvents := some
                  { tLow := s1.previousStartTime, tHigh := tret,
                    eventIds := cfg.findEventIds ((List.range cfg.nevents).filter
                      (fun i => decide ((env.rootInfo s1.nCalls).getD i 0 = 1))),
                    eventTimes := List.replicate
                      (cfg.findEventIds ((List.range cfg.nevents).filter
                        (fun i => decide ((env.rootInfo s1.nCalls).getD i 0 = 1)))).length
                      tret,
                    eventTransitions := List.replicate
                      (cfg.findEventIds ((List.range cfg.nevents).filter
                        (fun i => decide ((env.rootInfo s1.nCalls).getD i 0 = 1)))).length
                      EventTrigger.AnySignChange },
                stepCommunicationStatus :=
                  StepCommunicationStatus.StepHasBeenReturnedWithEvent }
  else if cfg.userReturnEveryInternalStep = 1 then
    IterOut.ret SuccessfulStepStatus.TimeHasAdvanced
      { s1 with stepCommunicationStatus :=
                  StepCommunicationStatus.StepHasBeenReturnedNoEvent }
  else
    IterOut.next s1

/-- The tail of the `stepTo` loop body after `(tret, res)` are in hand:
commit `tret` into the advanced state, realize derivatives (no modelled
field changes), check for errors, run the overshoot check, and resolve the
return code against the boundary conditions in source order. -/
def processStep (env : SolverOracle) (cfg : Config) (reportTime : ℚ)
    (schedE : Option ℚ) (tMax : ℚ) (tret : ℚ) (res : Int) (s0 : IntegState) :
    IterOut :=
  let s := commitTime tret s0
  if res = CPodes.TooMuchWork then
    IterOut.ret SuccessfulStepStatus.ReachedStepLimit
      { s with stepCommunicationStatus :=
          StepCommunicationStatus.StepHasBeenReturnedNoEvent }
  else if res < 0 then
    IterOut.fail s.advanced.time s
  else
    resolveReturn env cfg reportTime schedE tret res (interpPhase env tMax tret s)

/-- One full iteration of the `stepTo` loop body. -/
def stepIter (env : SolverOracle) (cfg : Config) (reportTime : ℚ)
    (schedE : Option ℚ) (tMax : ℚ) (mode : CPodes.StepMode) (s : IntegState) :
    IterOut :=
  match acquireStep env tMax mode s with
  | (tret, res, s1) => processStep env cfg reportTime schedE tMax tret res s1

/-- Result of a `stepTo` call: a successful status, an
`Integrator::StepFailed` error carrying the advanced state's time, or loop
fuel exhaustion (the C++ loop has no bound; fuel only makes the embedding
total). -/
inductive StepResult where
  | ok (status : SuccessfulStepStatus) (s : IntegState)
  | failed (t : ℚ) (s : IntegState)
  | outOfFuel (s : IntegState)
deriving DecidableEq, Repr

/-- The status of a successful `stepTo` result. -/
def StepResult.status : StepResult → Option SuccessfulStepStatus
  | .ok st _ => some st
  | _ => none

/-- The `while (true)` loop of `stepTo`, bounded by fuel. -/
def stepToLoop (env : SolverOracle) (cfg : Config) (reportTime : ℚ)
    (schedE : Option ℚ) (tMax : ℚ) (mode : CPodes.StepMode) :
    ℕ → IntegState → StepResult
  | 0, s => StepResult.outOfFuel s
  | fuel + 1, s =>
    match stepIter env cfg reportTime schedE tMax mode s with
    | IterOut.ret st s1 => StepResult.ok st s1
    | IterOut.fail t s1 => StepResult.failed t s1
    | IterOut.next s1 => stepToLoop env cfg reportTime schedE tMax mode fuel s1

/-- Entry point `CPodesIntegratorRep::stepTo(reportTime, scheduledEventTime)`: the
start-of-interval guard, the infinity overwrite of a non-positive event
time, the ceiling and mode selection, then the stepping loop. -/
def stepTo (env : SolverOracle) (cfg : Config) (fuel : ℕ)
    (reportTime scheduledEventTime : ℚ) (s : IntegState) : StepResult :=
  if s.startOfContinuousInterval then
    StepResult.ok SuccessfulStepStatus.StartOfContinuousInterval
      { s with startOfContinuousInterval := false }
  else
    let schedE := effectiveEventTime scheduledEventTime
    let tMax := stepCeiling reportTime scheduledEventTime
    stepToLoop env cfg reportTime schedE tMax (chooseStepMode cfg) fuel s

/-- Sanity of the solver oracle's vectors: committed step vectors and
dense-output vectors are nonempty (the state dimension is positive). -/
def SolverOracle.WellFormed (env : SolverOracle) : Prop :=
  (∀ n tM mo, (env.stepRes n tM mo).yout ≠ []) ∧ (∀ n t, env.dky n t ≠ [])

/-- The time the caller currently sees: the Interpolated State's time when
the interpolated-state flag is up, the Advanced State's time otherwise. -/
def currentTime (s : IntegState) : ℚ :=
  if s.useInterpolatedState then s.interp.time else s.advanced.time

/-- The time below which the solver cannot return: the advanced time when a
fresh step is due, the stashed returned time while a pending record is
live (the solver's internal position is the overshoot). -/
def solverFloor (s : IntegState) : ℚ :=
  if s.pendingReturnCode = -1 then s.advanced.time else s.previousTimeReturned

/-- Sanity of the solver's returned times for calls from index `n0` on at
fixed arguments: bounded below by `t0` and non-decreasing in the call
index. -/
def SaneSteps (env : SolverOracle) (n0 : ℕ) (t0 : ℚ) (tM : ℚ)
    (mo : CPodes.StepMode) : Prop :=
  (∀ n, n0 ≤ n → t0 ≤ (env.stepRes n tM mo).tret) ∧
  (∀ m n, n0 ≤ m → m ≤ n →
    (env.stepRes m tM mo).tret ≤ (env.stepRes n tM mo).tret)

/-- The state invariant maintained by `stepTo`: an active interpolated
state implies a live pending record; a live pending record means the
advanced time does not exceed the stashed returned time; the last step's
start time does not exceed the advanced time; and an active interpolated
state's time lies (inclusively) between the last step's start time and the
advanced time. -/
def Inv (s : IntegState) : Prop :=
  (s.useInterpolatedState = true → s.pendingReturnCode ≠ -1) ∧
  (s.pendingReturnCode ≠ -1 → s.advanced.time ≤ s.previousTimeReturned) ∧
  s.previousStartTime ≤ s.advanced.time ∧
  (s.useInterpolatedState = true →
    s.previousStartTime ≤ s.interp.time ∧ s.interp.time ≤ s.advanced.time)

namespace C1

/-- Concrete solver oracle for the C1 witness: one step to `tret = 5`. -/
def env : SolverOracle :=
  { stepRes := fun _ _ _ => { tret := 5, yout := [1], res := CPodes.Success },
    dky := fun _ t => [t],
    rootInfo := fun _ => [] }

/-- Concrete configuration for the C1 witness. -/
def cfg : Config :=
  { userFinalTime := -1, userReturnEveryInternalStep := 0, nevents := 0,
    findEventIds := fun l => l }

/-- Concrete fresh integrator state for the C1 witness. -/
def s : IntegState :=
  { advanced := { time := 0, y := [0], d := 0 },
    interp := { time := 0, y := [0], d := 0 },
    useInterpolatedState := false,
    pendingReturnCode := -1,
    previousTimeReturned := 0,
    previousStartTime := 0,
    savedY := [],
    startOfContinuousInterval := false,
    stepCommunicationStatus := StepCommunicationStatus.StepHasBeenReturnedNoEvent,
    terminationReason := TerminationReason.NotTerminated,
    triggeredEvents := none,
    constraintTol := 1,
    nCalls := 0 }

end C1

namespace C2

/-- Concrete solver oracle for the C2 witness: one step overshooting to
`tret = 3` past the scheduled event at `t = 2`. -/
def env : SolverOracle :=
  { stepRes := fun _ _ _ => { tret := 3, yout := [9], res := CPodes.Success },
    dky := fun _ t => [t],
    rootInfo := fun _ => [] }

/-- Concrete configuration for the C2 witness. -/
def cfg : Config :=
  { userFinalTime := -1, userReturnEveryInternalStep := 0, nevents := 0,
    findEventIds := fun l => l }

/-- Concrete fresh integrator state for the C2 witness. -/
def s : IntegState :=
  { advanced := { time := 0, y := [0], d := 0 },
    interp := { time := 0, y := [0], d := 0 },
    useInterpolatedState := false,
    pendingReturnCode := -1,
    previousTimeReturned := 0,
    previousStartTime := 0,
    savedY := [],
    startOfContinuousInterval := false,
    stepCommunicationStatus := StepCommunicationStatus.StepHasBeenReturnedNoEvent,
    terminationReason := TerminationReason.NotTerminated,
    triggeredEvents := none,
    constraintTol := 1,
    nCalls := 0 }

/-- The state the C2 witness call produces: rewound to the event time 2,
with the dense-output vector `[2]` in the advanced state, the overshot
vector `[9]` saved, and the raw result 0 stashed. -/
def s2 : IntegState :=
  { advanced := { time := 2, y := [2], d := 0 },
    interp := { time := 2, y := [2], d := 0 },
    useInterpolatedState := true,
    pendingReturnCode := 0,
    previousTimeReturned := 3,
    previousStartTime := 0,
    savedY := [9],
    startOfContinuousInterval := false,
    stepCommunicationStatus := StepCommunicationStatus.StepHasBeenReturnedWithEvent,
    terminationReason := TerminationReason.NotTerminated,
    triggeredEvents := none,
    constraintTol := 1,
    nCalls := 1 }

end C2

namespace C5

/-- Concrete solver oracle for the C5 counterexample: the step exhausts the
step budget at `tret = 5`, beyond any ceiling the call will use. -/
def env : SolverOracle :=
  { stepRes := fun _ _ _ => { tret := 5, yout := [1], res := CPodes.TooMuchWork },
    dky := fun _ t => [t],
    rootInfo := fun _ => [] }

/-- Concrete configuration for the C5 counterexample and witness. -/
def cfg : Config :=
  { userFinalTime := -1, userReturnEveryInternalStep := 0, nevents := 0,
    findEventIds := fun l => l }

/-- Concrete fresh integrator state for the C5 counterexample and witness. -/
def s : IntegState :=
  { advanced := { time := 0, y := [0], d := 0 },
    interp := { time := 0, y := [0], d := 0 },
    useInterpolatedState := false,
    pendingReturnCode := -1,
    previousTimeReturned := 0,
    previousStartTime := 0,
    savedY := [],
    startOfContinuousInterval := false,
    stepCommunicationStatus := StepCommunicationStatus.StepHasBeenReturnedNoEvent,
    terminationReason := TerminationReason.NotTerminated,
    triggeredEvents := none,
    constraintTol := 1,
    nCalls := 0 }

/-- Concrete solver oracle for the C5 witness: a successful step to
`tret = 5`. -/
def env2 : SolverOracle :=
  { stepRes := fun _ _ _ => { tret := 5, yout := [1], res := CPodes.Success },
    dky := fun _ t => [t],
    rootInfo := fun _ => [] }

/-- The state `acquireStep` produces from `s` with the `env2` oracle. -/
def s1 : IntegState :=
  { advanced := { time := 0, y := [1], d := 0 },
    interp := { time := 0, y := [0], d := 0 },
    useInterpolatedState := false,
    pendingReturnCode := -1,
    previousTimeReturned := 5,
    previousStartTime := 0,
    savedY := [],
    startOfContinuousInterval := false,
    stepCommunicationStatus := StepCommunicationStatus.StepHasBeenReturnedNoEvent,
    terminationReason := TerminationReason.NotTerminated,
    triggeredEvents := none,
    constraintTol := 1,
    nCalls := 1 }

end C5

namespace C6

/-- Concrete solver oracle for the C6 witness. -/
def env : SolverOracle :=
  { stepRes := fun _ _ _ => { tret := 5, yout := [1], res := CPodes.Success },
    dky := fun _ t => [t],
    rootInfo := fun _ => [] }

/-- Concrete configuration for the C6 witness. -/
def cfg : Config :=
  { userFinalTime := -1, userReturnEveryInternalStep := 0, nevents := 0,
    findEventIds := fun l => l }

/-- Concrete integrator state with the start-of-interval flag set. -/
def s : IntegState :=
  { advanced := { time := 0, y := [0], d := 0 },
    interp := { time := 0, y := [0], d := 0 },
    useInterpolatedState := false,
    pendingReturnCode := -1,
    previousTimeReturned := 0,
    previousStartTime := 0,
    savedY := [],
    startOfContinuousInterval := true,
    stepCommunicationStatus := StepCommunicationStatus.StepHasBeenReturnedNoEvent,
    terminationReason := TerminationReason.NotTerminated,
    triggeredEvents := none,
    constraintTol := 1,
    nCalls := 0 }

end C6

namespace C7

/-- Concrete sane solver oracle for the C7 counterexample and witness: a
single accepted step to `tret = 5`, dense output `[t]`. -/
def env : SolverOracle :=
  { stepRes := fun _ _ _ => { tret := 5, yout := [50], res := CPodes.Success },
    dky := fun _ t => [t],
    rootInfo := fun _ => [] }

/-- Concrete configuration for the C7 counterexample and witness. -/
def cfg : Config :=
  { userFinalTime := -1, userReturnEveryInternalStep := 0, nevents := 0,
    findEventIds := fun l => l }

/-- Concrete fresh integrator state for the C7 counterexample and witness. -/
def s : IntegState :=
  { advanced := { time := 0, y := [0], d := 0 },
    interp := { time := 0, y := [0], d := 0 },
    useInterpolatedState := false,
    pendingReturnCode := -1,
    previousTimeReturned := 0,
    previousStartTime := 0,
    savedY := [],
    startOfContinuousInterval := false,
    stepCommunicationStatus := StepCommunicationStatus.StepHasBeenReturnedNoEvent,
    terminationReason := TerminationReason.NotTerminated,
    triggeredEvents := none,
    constraintTol := 1,
    nCalls := 0 }

/-- The state after the first C7 call (report 2, no event): the solver
overshot to 5, the report was delivered from the interpolated state at 2,
and the raw step is pending. -/
def s1 : IntegState :=
  { advanced := { time := 5, y := [50], d := 0 },
    interp := { time := 2, y := [2], d := 0 },
    useInterpolatedState := true,
    pendingReturnCode := 0,
    previousTimeReturned := 5,
    previousStartTime := 0,
    savedY := [],
    startOfContinuousInterval := false,
    stepCommunicationStatus := StepCommunicationStatus.StepHasBeenReturnedNoEvent,
    terminationReason := TerminationReason.NotTerminated,
    triggeredEvents := none,
    constraintTol := 1,
    nCalls := 1 }

/-- The state after the second C7 call (report 10, event 3): the pending
step resumed at 5 and the advanced state was rewound to the event time 3. -/
def s2 : IntegState :=
  { advanced := { time := 3, y := [3], d := 0 },
    interp := { time := 3, y := [3], d := 0 },
    useInterpolatedState := true,
    pendingReturnCode := 0,
    previousTimeReturned := 5,
    previousStartTime := 0,
    savedY := [50],
    startOfContinuousInterval := false,
    stepCommunicationStatus := StepCommunicationStatus.StepHasBeenReturnedWithEvent,
    terminationReason := TerminationReason.NotTerminated,
    triggeredEvents := none,
    constraintTol := 1,
    nCalls := 1 }

end C7

namespace C8

/-- Concrete solver oracle for the C8 witness: the step exhausts the
internal step budget at `tret = 1/2`. -/
def env : SolverOracle :=
  { stepRes := fun _ _ _ => { tret := 1/2, yout := [3], res := CPodes.TooMuchWork },
    dky := fun _ t => [t],
    rootInfo := fun _ => [] }

/-- Concrete configuration for the C8 witness. -/
def cfg : Config :=
  { userFinalTime := -1, userReturnEveryInternalStep := 0, nevents := 0,
    findEventIds := fun l => l }

/-- Concrete fresh integrator state for the C8 witness. -/
def s : IntegState :=
  { advanced := { time := 0, y := [0], d := 0 },
    interp := { time := 0, y := [0], d := 0 },
    useInterpolatedState := false,
    pendingReturnCode := -1,
    previousTimeReturned := 0,
    previousStartTime := 0,
    savedY := [],
    startOfContinuousInterval := false,
    stepCommunicationStatus := StepCommunicationStatus.StepHasBeenReturnedNoEvent,
    terminationReason := TerminationReason.NotTerminated,
    triggeredEvents := none,
    constraintTol := 1,
    nCalls := 0 }

end C8

namespace C9

/-- Concrete solver oracle for the C9 witness: the step fails with the
negative, non-step-limit code `-4`. -/
def env : SolverOracle :=
  { stepRes := fun _ _ _ => { tret := 1/4, yout := [2], res := -4 },
    dky := fun _ t => [t],
    rootInfo := fun _ => [] }

/-- Concrete configuration for the C9 witness. -/
def cfg : Config :=
  { userFinalTime := -1, userReturnEveryInternalStep := 0, nevents := 0,
    findEventIds := fun l => l }

/-- Concrete fresh integrator state for the C9 witness. -/
def s : IntegState :=
  { advanced := { time := 0, y := [0], d := 0 },
    interp := { time := 0, y := [0], d := 0 },
    useInterpolatedState := false,
    pendingReturnCode := -1,
    previousTimeReturned := 0,
    previousStartTime := 0,
    savedY := [],
    startOfContinuousInterval := false,
    stepCommunicationStatus := StepCommunicationStatus.StepHasBeenReturnedNoEvent,
    terminationReason := TerminationReason.NotTerminated,
    triggeredEvents := none,
    constraintTol := 1,
    nCalls := 0 }

end C9

namespace C10

/-- Concrete solver oracle for the C10 witness: a root return at
`tret = 2` with root-info flags `[1, -1, 1]` — index 1 crossed in the
unreported direction and must be omitted. -/
def env : SolverOracle :=
  { stepRes := fun _ _ _ => { tret := 2, yout := [7], res := CPodes.RootReturn },
    dky := fun _ t => [t],
    rootInfo := fun _ => [1, -1, 1] }

/-- Concrete configuration for the C10 witness: three registered triggers,
identity event-identification policy. -/
def cfg : Config :=
  { userFinalTime := -1, userReturnEveryInternalStep := 0, nevents := 3,
    findEventIds := fun l => l }

/-- Concrete fresh integrator state for the C10 witness. -/
def s : IntegState :=
  { advanced := { time := 0, y := [0], d := 0 },
    interp := { time := 0, y := [0], d := 0 },
    useInterpolatedState := false,
    pendingReturnCode := -1,
    previousTimeReturned := 0,
    previousStartTime := 0,
    savedY := [],
    startOfContinuousInterval := false,
    stepCommunicationStatus := StepCommunicationStatus.StepHasBeenReturnedNoEvent,
    terminationReason := TerminationReason.NotTerminated,
    triggeredEvents := none,
    constraintTol := 1,
    nCalls := 0 }

end C10

/-! ## Theorems -/

/-- C3: Recoverable-failure containment.  Each of the four State Bridge
callbacks (`explicitODE`, `constraint`, `project`, `root`) is a total
function: when the forced realization (or, for `project`, any part of the
projection computation) raises, the callback returns
`CPodes::RecoverableError`, and otherwise it returns `CPodes::Success`; no
exception propagates past the callback boundary. -/
theorem callbacks_recoverable_containment (sys : SysModel) (integ : IntegState)
    (t : ℚ) (y yp buf : Vec) (epsProj : ℚ) (err : Vec) :
    ((explicitODE sys integ t y buf).1 =
      if sys.realizeOk Stage.Acceleration t y then CPodes.Success
      else CPodes.RecoverableError) ∧
    ((constraint sys integ t y buf).1 =
      if sys.realizeOk Stage.Velocity t y then CPodes.Success
      else CPodes.RecoverableError) ∧
    ((project sys integ t y buf epsProj err).1 =
      if (projectAttempt sys integ.constraintTol t y err).isSome then
        CPodes.Success
      else CPodes.RecoverableError) ∧
    ((root sys integ t y yp buf).1 =
      if sys.realizeOk Stage.Acceleration t y then CPodes.Success
      else CPodes.RecoverableError) := by
  refine ⟨?_, ?_, ?_, ?_⟩
  · simp only [explicitODE]
    split <;> rfl
  · simp only [constraint]
    split <;> rfl
  · unfold project
    cases h : projectAttempt sys integ.constraintTol t y err with
    | none => simp [h]
    | some pr => simp [h]
  · simp only [root]
    split <;> rfl

/-- C4: Callback frame property.  Each callback writes `(t, y)` only into a
private value copy of the advanced state (`State advanced =
integ.updAdvancedState()` copies), so on both the success and the
recoverable-error path the integrator state it hands back — in particular
the authoritative Advanced State's time and vector — is exactly the input
integrator state. -/
theorem callbacks_preserve_advanced_state (sys : SysModel) (integ : IntegState)
    (t : ℚ) (y yp buf : Vec) (epsProj : ℚ) (err : Vec) :
    (explicitODE sys integ t y buf).2.2 = integ ∧
    (constraint sys integ t y buf).2.2 = integ ∧
    (project sys integ t y buf epsProj err).2.2.2 = integ ∧
    (root sys integ t y yp buf).2.2 = integ := by
  refine ⟨?_, ?_, ?_, ?_⟩
  · simp only [explicitODE]
    split <;> rfl
  · simp only [constraint]
    split <;> rfl
  · unfold project
    cases h : projectAttempt sys integ.constraintTol t y err with
    | none => simp [h]
    | some pr => simp [h]
  · simp only [root]
    split <;> rfl

/-- C6: Start-of-interval law.  A `stepTo` call made while the
start-of-continuous-interval flag is set clears exactly that flag and
returns `StartOfContinuousInterval` at once: the result state differs from
the input only in that flag, so the Advanced State, the Interpolated State
and the solver-call count are untouched and the solver is not invoked. -/
theorem stepTo_start_of_interval (env : SolverOracle) (cfg : Config)
    (fuel : ℕ) (reportTime scheduledEventTime : ℚ) (s : IntegState)
    (h : s.startOfContinuousInterval = true) :
    stepTo env cfg fuel reportTime scheduledEventTime s =
      StepResult.ok SuccessfulStepStatus.StartOfContinuousInterval
        { s with startOfContinuousInterval := false } := by
  simp [stepTo, h]

/-- C6 witness: the start-of-interval theorem applied at a concrete state. -/
theorem stepTo_start_of_interval_witness :
    stepTo C6.env C6.cfg 3 1 0 C6.s =
      StepResult.ok SuccessfulStepStatus.StartOfContinuousInterval
        { C6.s with startOfContinuousInterval := false } :=
  stepTo_start_of_interval C6.env C6.cfg 3 1 0 C6.s rfl

@[simp] theorem qle_none (a : ℚ) : qle a none := True.intro

@[simp] theorem qle_some (a b : ℚ) : qle a (some b) ↔ a ≤ b := Iff.rfl

@[simp] theorem qge_none (a : ℚ) : ¬ qge a none := id

@[simp] theorem qge_some (a b : ℚ) : qge a (some b) ↔ b ≤ a := Iff.rfl

@[simp] theorem qgt_none (a : ℚ) : ¬ qgt a none := id

@[simp] theorem qgt_some (a b : ℚ) : qgt a (some b) ↔ b < a := Iff.rfl

theorem effectiveEventTime_pos {eT : ℚ} (h : 0 < eT) :
    effectiveEventTime eT = some eT := by
  simp [effectiveEventTime, not_le.mpr h]

theorem effectiveEventTime_nonpos {eT : ℚ} (h : eT ≤ 0) :
    effectiveEventTime eT = none := by
  simp [effectiveEventTime, h]

/-- C1: Tie-break law for coincident boundaries.  On a fresh call whose
solver step yields a non-error result whose returned time qualifies for
both the report match and the (finite) event match, the outcome is
`ReachedReportTime` exactly when `reportTime ≤ scheduledEventTime`, and
`ReachedScheduledEvent` when `scheduledEventTime < reportTime`. -/
theorem stepTo_tie_break (env : SolverOracle) (cfg : Config) (fuel : ℕ)
    (rT eT : ℚ) (s : IntegState)
    (hStart : s.startOfContinuousInterval = false)
    (hPending : s.pendingReturnCode = -1)
    (hE : 0 < eT)
    (hRes : 0 ≤ (env.stepRes s.nCalls (stepCeiling rT eT) (chooseStepMode cfg)).res)
    (hRT : rT ≤ (env.stepRes s.nCalls (stepCeiling rT eT) (chooseStepMode cfg)).tret)
    (hET : eT ≤ (env.stepRes s.nCalls (stepCeiling rT eT) (chooseStepMode cfg)).tret) :
    (stepTo env cfg (fuel + 1) rT eT s).status =
      some (if rT ≤ eT then SuccessfulStepStatus.ReachedReportTime
            else SuccessfulStepStatus.ReachedScheduledEvent) := by
  have hTooMuch :
      (env.stepRes s.nCalls (stepCeiling rT eT) (chooseStepMode cfg)).res ≠
        CPodes.TooMuchWork := by
    intro hEq
    rw [hEq] at hRes
    norm_num [CPodes.TooMuchWork] at hRes
  have hNeg : ¬ (env.stepRes s.nCalls (stepCeiling rT eT) (chooseStepMode cfg)).res < 0 :=
    not_lt.mpr hRes
  simp only [stepTo, hStart, Bool.false_eq_true, if_false, stepToLoop, stepIter,
    acquireStep, hPending, if_pos, effectiveEventTime_pos hE]
  rw [processStep]
  simp only [hTooMuch, hNeg, if_false, effectiveEventTime_pos hE]
  rw [resolveReturn]
  rcases le_or_lt rT eT with hle | hlt
  · have hCond : (env.stepRes s.nCalls (stepCeiling rT eT) (chooseStepMode cfg)).tret ≥ rT ∧
        qle rT (some eT) := ⟨hRT, (qle_some rT eT).mpr hle⟩
    rw [if_pos hCond, if_pos hle]
    rfl
  · have hCond : ¬ ((env.stepRes s.nCalls (stepCeiling rT eT) (chooseStepMode cfg)).tret ≥ rT ∧
        qle rT (some eT)) := by
      rintro ⟨-, hc⟩
      exact absurd ((qle_some rT eT).mp hc) (not_le.mpr hlt)
    have hCond2 : qge (env.stepRes s.nCalls (stepCeiling rT eT) (chooseStepMode cfg)).tret
        (some eT) := (qge_some _ eT).mpr hET
    rw [if_neg hCond, if_pos hCond2, if_neg (not_le.mpr hlt)]
    by_cases hq : qgt (env.stepRes s.nCalls (stepCeiling rT eT) (chooseStepMode cfg)).tret
        (some eT)
    · rw [if_pos hq]
      rfl
    · rw [if_neg hq]
      rfl

/-- C1 witness: the tie-break theorem applied twice at concrete inputs —
once with `reportTime = scheduledEventTime = 2` (report wins the tie) and
once with `scheduledEventTime = 2 < 3 = reportTime` (event wins). -/
theorem stepTo_tie_break_witness :
    (stepTo C1.env C1.cfg 1 2 2 C1.s).status =
      some SuccessfulStepStatus.ReachedReportTime ∧
    (stepTo C1.env C1.cfg 1 3 2 C1.s).status =
      some SuccessfulStepStatus.ReachedScheduledEvent := by
  constructor
  · have h := stepTo_tie_break C1.env C1.cfg 0 2 2 C1.s rfl rfl (by norm_num)
      (by decide) (by decide) (by decide)
    simpa using h
  · have h := stepTo_tie_break C1.env C1.cfg 0 3 2 C1.s rfl rfl (by norm_num)
      (by decide) (by decide) (by decide)
    simpa using h

/-- C8: Step-limit outcome.  On a fresh call whose solver step reports
`CPodes::TooMuchWork`, `stepTo` returns `ReachedStepLimit` (no error is
raised), with the solver's returned time and vector already committed into
the Advanced State; the pending-return record is left at its sentinel, so
the next call makes a fresh solver call. -/
theorem stepTo_step_limit (env : SolverOracle) (cfg : Config) (fuel : ℕ)
    (rT eT : ℚ) (s : IntegState)
    (hStart : s.startOfContinuousInterval = false)
    (hPending : s.pendingReturnCode = -1)
    (hRes : (env.stepRes s.nCalls (stepCeiling rT eT) (chooseStepMode cfg)).res =
      CPodes.TooMuchWork) :
    stepTo env cfg (fuel + 1) rT eT s =
      StepResult.ok SuccessfulStepStatus.ReachedStepLimit
        { s with
            advanced := { s.advanced with
              y := (env.stepRes s.nCalls (stepCeiling rT eT) (chooseStepMode cfg)).yout,
              time := (env.stepRes s.nCalls (stepCeiling rT eT) (chooseStepMode cfg)).tret },
            previousStartTime := s.advanced.time,
            previousTimeReturned :=
              (env.stepRes s.nCalls (stepCeiling rT eT) (chooseStepMode cfg)).tret,
            nCalls := s.nCalls + 1,
            stepCommunicationStatus :=
              StepCommunicationStatus.StepHasBeenReturnedNoEvent } := by
  simp only [stepTo, hStart, Bool.false_eq_true, if_false, stepToLoop, stepIter,
    acquireStep, hPending, if_pos]
  rw [processStep, if_pos hRes]
  rfl

/-- C9: Step-failure error.  On a fresh call whose solver step returns a
negative result other than the step-limit code, `stepTo` raises
`Integrator::StepFailed` carrying the Advanced State's time (which is the
just-committed returned time); no successful outcome is produced. -/
theorem stepTo_step_failure (env : SolverOracle) (cfg : Config) (fuel : ℕ)
    (rT eT : ℚ) (s : IntegState)
    (hStart : s.startOfContinuousInterval = false)
    (hPending : s.pendingReturnCode = -1)
    (hNegRes : (env.stepRes s.nCalls (stepCeiling rT eT) (chooseStepMode cfg)).res < 0)
    (hNotLimit : (env.stepRes s.nCalls (stepCeiling rT eT) (chooseStepMode cfg)).res ≠
      CPodes.TooMuchWork) :
    stepTo env cfg (fuel + 1) rT eT s =
      StepResult.failed
        (env.stepRes s.nCalls (stepCeiling rT eT) (chooseStepMode cfg)).tret
        { s with
            advanced := { s.advanced with
              y := (env.stepRes s.nCalls (stepCeiling rT eT) (chooseStepMode cfg)).yout,
              time := (env.stepRes s.nCalls (stepCeiling rT eT) (chooseStepMode cfg)).tret },
            previousStartTime := s.advanced.time,
            previousTimeReturned :=
              (env.stepRes s.nCalls (stepCeiling rT eT) (chooseStepMode cfg)).tret,
            nCalls := s.nCalls + 1 } := by
  simp only [stepTo, hStart, Bool.false_eq_true, if_false, stepToLoop, stepIter,
    acquireStep, hPending, if_pos]
  rw [processStep, if_neg hNotLimit, if_pos hNegRes]
  rfl

/-- C8 witness: the step-limit theorem applied at a concrete input. -/
theorem stepTo_step_limit_witness :
    stepTo C8.env C8.cfg 1 1 0 C8.s =
      StepResult.ok SuccessfulStepStatus.ReachedStepLimit
        { C8.s with
            advanced := { C8.s.advanced with
              y := (C8.env.stepRes C8.s.nCalls (stepCeiling 1 0) (chooseStepMode C8.cfg)).yout,
              time := (C8.env.stepRes C8.s.nCalls (stepCeiling 1 0) (chooseStepMode C8.cfg)).tret },
            previousStartTime := C8.s.advanced.time,
            previousTimeReturned :=
              (C8.env.stepRes C8.s.nCalls (stepCeiling 1 0) (chooseStepMode C8.cfg)).tret,
            nCalls := C8.s.nCalls + 1,
            stepCommunicationStatus :=
              StepCommunicationStatus.StepHasBeenReturnedNoEvent } :=
  stepTo_step_limit C8.env C8.cfg 0 1 0 C8.s rfl rfl (by decide)

/-- C9 witness: the step-failure theorem applied at a concrete input. -/
theorem stepTo_step_failure_witness :
    stepTo C9.env C9.cfg 1 1 0 C9.s =
      StepResult.failed
        (C9.env.stepRes C9.s.nCalls (stepCeiling 1 0) (chooseStepMode C9.cfg)).tret
        { C9.s with
            advanced := { C9.s.advanced with
              y := (C9.env.stepRes C9.s.nCalls (stepCeiling 1 0) (chooseStepMode C9.cfg)).yout,
              time := (C9.env.stepRes C9.s.nCalls (stepCeiling 1 0) (chooseStepMode C9.cfg)).tret },
            previousStartTime := C9.s.advanced.time,
            previousTimeReturned :=
              (C9.env.stepRes C9.s.nCalls (stepCeiling 1 0) (chooseStepMode C9.cfg)).tret,
            nCalls := C9.s.nCalls + 1 } :=
  stepTo_step_failure C9.env C9.cfg 0 1 0 C9.s rfl rfl (by decide) (by decide)

/-- C10: Root-flag filtering.  On a fresh call whose solver step reports a
root at a time strictly below both the report time and the (possibly
absent) scheduled event time, `stepTo` returns `ReachedEventTrigger` and
delivers a triggered-event record built from exactly those trigger indices
whose root-info flag equals `1` (any other flag value, e.g. `-1`, is
omitted), passed through the event-identification policy, with every
member assigned event time `tret` and transition `AnySignChange`. -/
theorem stepTo_root_return (env : SolverOracle) (cfg : Config) (fuel : ℕ)
    (rT eT : ℚ) (s : IntegState)
    (hStart : s.startOfContinuousInterval = false)
    (hPending : s.pendingReturnCode = -1)
    (hRes : (env.stepRes s.nCalls (stepCeiling rT eT) (chooseStepMode cfg)).res =
      CPodes.RootReturn)
    (hRT : (env.stepRes s.nCalls (stepCeiling rT eT) (chooseStepMode cfg)).tret < rT)
    (hET : eT ≤ 0 ∨
      (env.stepRes s.nCalls (stepCeiling rT eT) (chooseStepMode cfg)).tret < eT) :
    stepTo env cfg (fuel + 1) rT eT s =
      StepResult.ok SuccessfulStepStatus.ReachedEventTrigger
        { s with
            advanced := { s.advanced with
              y := (env.stepRes s.nCalls (stepCeiling rT eT) (chooseStepMode cfg)).yout,
              time := (env.stepRes s.nCalls (stepCeiling rT eT) (chooseStepMode cfg)).tret },
            useInterpolatedState := false,
            previousStartTime := s.advanced.time,
            previousTimeReturned :=
              (env.stepRes s.nCalls (stepCeiling rT eT) (chooseStepMode cfg)).tret,
            nCalls := s.nCalls + 1,
            triggeredEvents := some
              { tLow := s.advanced.time,
                tHigh := (env.stepRes s.nCalls (stepCeiling rT eT) (chooseStepMode cfg)).tret,
                eventIds := cfg.findEventIds ((List.range cfg.nevents).filter
                  (fun i => decide ((env.rootInfo (s.nCalls + 1)).getD i 0 = 1))),
                eventTimes := List.replicate
                  (cfg.findEventIds ((List.range cfg.nevents).filter
                    (fun i => decide ((env.rootInfo (s.nCalls + 1)).getD i 0 = 1)))).length
                  (env.stepRes s.nCalls (stepCeiling rT eT) (chooseStepMode cfg)).tret,
                eventTransitions := List.replicate
                  (cfg.findEventIds ((List.range cfg.nevents).filter
                    (fun i => decide ((env.rootInfo (s.nCalls + 1)).getD i 0 = 1)))).length
                  EventTrigger.AnySignChange },
            stepCommunicationStatus :=
              StepCommunicationStatus.StepHasBeenReturnedWithEvent } := by
  have hNotLimit : (env.stepRes s.nCalls (stepCeiling rT eT) (chooseStepMode cfg)).res ≠
      CPodes.TooMuchWork := by
    rw [hRes]
    norm_num [CPodes.RootReturn, CPodes.TooMuchWork]
  have hNotNeg : ¬ (env.stepRes s.nCalls (stepCeiling rT eT) (chooseStepMode cfg)).res < 0 := by
    rw [hRes]
    norm_num [CPodes.RootReturn]
  have hNotTstop : (env.stepRes s.nCalls (stepCeiling rT eT) (chooseStepMode cfg)).res ≠
      CPodes.TstopReturn := by
    rw [hRes]
    norm_num [CPodes.RootReturn, CPodes.TstopReturn]
  have hNotOver : ¬ ((env.stepRes s.nCalls (stepCeiling rT eT) (chooseStepMode cfg)).tret >
      stepCeiling rT eT) := by
    by_cases heT : eT ≤ 0
    · have hceil : stepCeiling rT eT = rT := by
        rw [stepCeiling, effectiveEventTime_nonpos heT]
      rw [hceil] at hRT ⊢
      exact not_lt.mpr hRT.le
    · have hceil : stepCeiling rT eT = min rT eT := by
        rw [stepCeiling, effectiveEventTime_pos (not_le.mp heT)]
      have hET2 := hET.resolve_left heT
      rw [hceil] at hRT hET2 ⊢
      exact not_lt.mpr (le_min hRT.le hET2.le)
  have hNotReport : ¬ ((env.stepRes s.nCalls (stepCeiling rT eT) (chooseStepMode cfg)).tret ≥ rT ∧
      qle rT (effectiveEventTime eT)) := by
    rintro ⟨hc, -⟩
    exact absurd hc (not_le.mpr hRT)
  have hNotEvent : ¬ qge (env.stepRes s.nCalls (stepCeiling rT eT) (chooseStepMode cfg)).tret
      (effectiveEventTime eT) := by
    by_cases heT : eT ≤ 0
    · rw [effectiveEventTime_nonpos heT]
      exact qge_none _
    · rw [effectiveEventTime_pos (not_le.mp heT)]
      rcases hET with hET | hET
      · exact absurd hET heT
      · simpa using not_le.mpr hET
  simp only [stepTo, hStart, Bool.false_eq_true, if_false, stepToLoop, stepIter,
    acquireStep, hPending, if_pos]
  rw [processStep, if_neg hNotLimit, if_neg hNotNeg, interpPhase, if_neg hNotOver,
    resolveReturn, if_neg hNotReport, if_neg hNotEvent, if_neg hNotTstop, if_pos hRes]
  rfl

/-- C10 witness: the root-return theorem at a concrete input; flags
`[1, -1, 1]` produce exactly the event set `{0, 2}`, each member carrying
event time `2` and transition `AnySignChange`. -/
theorem stepTo_root_return_witness :
    (stepTo C10.env C10.cfg 1 3 0 C10.s).status =
      some SuccessfulStepStatus.ReachedEventTrigger ∧
    (match stepTo C10.env C10.cfg 1 3 0 C10.s with
      | StepResult.ok _ s1 => s1.triggeredEvents
      | _ => none) =
      some { tLow := 0, tHigh := 2, eventIds := [0, 2],
             eventTimes := [2, 2],
             eventTransitions :=
               [EventTrigger.AnySignChange, EventTrigger.AnySignChange] } := by
  have h := stepTo_root_return C10.env C10.cfg 0 3 0 C10.s rfl rfl (by decide)
    (by decide) (Or.inl le_rfl)
  rw [show stepTo C10.env C10.cfg 1 3 0 C10.s = _ from h]
  exact ⟨rfl, by decide⟩

/-- Resolution `resolveReturn` never changes the interpolated-state flag or the
Interpolated State itself, whatever branch it takes. -/
theorem resolveReturn_flag_interp (env : SolverOracle) (cfg : Config)
    (rT : ℚ) (schedE : Option ℚ) (tret : ℚ) (res : Int) (s1 : IntegState) :
    (resolveReturn env cfg rT schedE tret res s1).state.useInterpolatedState =
      s1.useInterpolatedState ∧
    (resolveReturn env cfg rT schedE tret res s1).state.interp = s1.interp := by
  rw [resolveReturn]
  split_ifs <;> exact ⟨rfl, rfl⟩

/-- C5 counterexample: a loop iteration whose solver result is
`CPodes::TooMuchWork` returns before the overshoot check, so even though
the returned time (5) strictly exceeds the ceiling (1), the
interpolated-state-active flag is not set (it stays `false`) and no
interpolated state is synthesized — contradicting the claim's "if and only
if" over every loop iteration. -/
theorem stepTo_interpolation_trigger_cex :
    (stepTo C5.env C5.cfg 1 1 0 C5.s).status =
      some SuccessfulStepStatus.ReachedStepLimit ∧
    (match stepTo C5.env C5.cfg 1 1 0 C5.s with
      | StepResult.ok _ s1 => s1.useInterpolatedState
      | _ => true) = false ∧
    stepCeiling 1 0 <
      (C5.env.stepRes 0 (stepCeiling 1 0) (chooseStepMode C5.cfg)).tret := by
  refine ⟨rfl, rfl, by decide⟩

/-- C5 (amended): Interpolation trigger and ceiling, restricted to loop
iterations that pass the error checks.  On every loop iteration whose
acquired result is neither `TooMuchWork` nor negative, the
interpolated-state-active flag of the resulting state is `true` iff the
returned time strictly exceeds the ceiling `tMax`, and in that case the
Interpolated State is synthesized at exactly the ceiling time from the
solver's dense output.  (On error-check iterations the flag and the
Interpolated State are left untouched.) -/
theorem stepIter_interpolation_trigger (env : SolverOracle) (cfg : Config)
    (rT : ℚ) (schedE : Option ℚ) (tMax : ℚ) (mode : CPodes.StepMode)
    (s : IntegState) (tret : ℚ) (res : Int) (s1 : IntegState)
    (hAcq : acquireStep env tMax mode s = (tret, res, s1))
    (hNotLimit : res ≠ CPodes.TooMuchWork)
    (hNotNeg : ¬ res < 0) :
    ((stepIter env cfg rT schedE tMax mode s).state.useInterpolatedState = true ↔
      tMax < tret) ∧
    (tMax < tret →
      (stepIter env cfg rT schedE tMax mode s).state.interp.time = tMax ∧
      (stepIter env cfg rT schedE tMax mode s).state.interp.y =
        env.dky s1.nCalls tMax) := by
  simp only [stepIter, hAcq]
  rw [processStep, if_neg hNotLimit, if_neg hNotNeg]
  obtain ⟨hflag, hinterp⟩ := resolveReturn_flag_interp env cfg rT schedE tret res
    (interpPhase env tMax tret (commitTime tret s1))
  rw [hflag, hinterp]
  by_cases hOver : tret > tMax
  · rw [interpPhase, if_pos hOver]
    refine ⟨by simpa using hOver, fun h => ⟨rfl, rfl⟩⟩
  · rw [interpPhase, if_neg hOver]
    refine ⟨by simpa using hOver, fun h => absurd h hOver⟩

/-- C5 witness: the amended interpolation-trigger theorem at a concrete
iteration: ceiling 1, returned time 5 > 1, so the flag is set and the
interpolated state is built at time 1. -/
theorem stepIter_interpolation_trigger_witness :
    ((stepIter C5.env2 C5.cfg 1 none 1 CPodes.StepMode.Normal
        C5.s).state.useInterpolatedState = true ↔ (1:ℚ) < 5) ∧
    ((1:ℚ) < 5 →
      (stepIter C5.env2 C5.cfg 1 none 1 CPodes.StepMode.Normal
        C5.s).state.interp.time = 1 ∧
      (stepIter C5.env2 C5.cfg 1 none 1 CPodes.StepMode.Normal
        C5.s).state.interp.y = C5.env2.dky C5.s1.nCalls 1) :=
  stepIter_interpolation_trigger C5.env2 C5.cfg 1 none 1 CPodes.StepMode.Normal
    C5.s 5 CPodes.Success C5.s1 (by decide) (by decide) (by decide)

/-- Resuming a pending record with a saved vector: `acquireStep` makes no
solver call, hands back the stashed time and code, restores `savedY` into
the advanced state and clears the record. -/
theorem acquireStep_resume (env : SolverOracle) (tM : ℚ) (mo : CPodes.StepMode)
    (s : IntegState) (hP : s.pendingReturnCode ≠ -1) (hS : s.savedY ≠ []) :
    acquireStep env tM mo s =
      (s.previousTimeReturned, s.pendingReturnCode,
        { s with pendingReturnCode := -1,
                 advanced := { s.advanced with y := s.savedY } }) := by
  rw [acquireStep, if_neg hP, if_pos (List.length_pos.mpr hS)]

/-- Both branches of `acquireStep` leave `previousTimeReturned` equal to
the time component of the acquired triple. -/
theorem acquireStep_prevTimeReturned (env : SolverOracle) (tM : ℚ)
    (mo : CPodes.StepMode) (s : IntegState) :
    ((acquireStep env tM mo s).2.2).previousTimeReturned =
      (acquireStep env tM mo s).1 := by
  rw [acquireStep]
  split_ifs <;> rfl

/-- Acquisition `acquireStep` keeps the advanced vector nonempty: it is either the
input's, a committed solver vector, or a nonempty restored `savedY`. -/
theorem acquireStep_y_ne (env : SolverOracle) (tM : ℚ) (mo : CPodes.StepMode)
    (s : IntegState) (hWF : env.WellFormed) (hY : s.advanced.y ≠ []) :
    ((acquireStep env tM mo s).2.2).advanced.y ≠ [] := by
  rw [acquireStep]
  split_ifs with h1 h2
  · exact hWF.1 s.nCalls tM mo
  · exact List.length_pos.mp h2
  · exact hY

/-- Acquisition `acquireStep` does not touch the interpolated state, the call counter
is only incremented on the fresh branch, and `nCalls` never decreases. -/
theorem acquireStep_interp (env : SolverOracle) (tM : ℚ) (mo : CPodes.StepMode)
    (s : IntegState) :
    ((acquireStep env tM mo s).2.2).interp = s.interp := by
  rw [acquireStep]
  split_ifs <;> rfl

/-- The overshoot check keeps nonempty advanced/interpolated vectors
nonempty: the interpolated vector is either untouched or a dense-output
vector of a well-formed oracle. -/
theorem interpPhase_y_ne (env : SolverOracle) (tMax tret : ℚ) (s : IntegState)
    (hWF : env.WellFormed) (hY : s.advanced.y ≠ []) (hI : s.interp.y ≠ []) :
    (interpPhase env tMax tret s).advanced.y ≠ [] ∧
    (interpPhase env tMax tret s).interp.y ≠ [] := by
  rw [interpPhase]
  split_ifs
  · exact ⟨hY, hWF.2 s.nCalls tMax⟩
  · exact ⟨hY, hI⟩

/-- Return-code resolution keeps nonempty advanced/interpolated vectors
nonempty: the advanced vector is only ever replaced by the interpolated
one (event rewind). -/
theorem resolveReturn_y_ne (env : SolverOracle) (cfg : Config) (rT : ℚ)
    (schedE : Option ℚ) (tret : ℚ) (res : Int) (s1 : IntegState)
    (hY : s1.advanced.y ≠ []) (hI : s1.interp.y ≠ []) :
    (resolveReturn env cfg rT schedE tret res s1).state.advanced.y ≠ [] ∧
    (resolveReturn env cfg rT schedE tret res s1).state.interp.y ≠ [] := by
  rw [resolveReturn]
  split_ifs <;> first
    | exact ⟨hY, hI⟩
    | exact ⟨hI, hI⟩

/-- One loop iteration keeps both the advanced and the interpolated vector
nonempty (for a well-formed oracle). -/
theorem stepIter_y_ne (env : SolverOracle) (cfg : Config) (rT : ℚ)
    (schedE : Option ℚ) (tMax : ℚ) (mode : CPodes.StepMode) (s : IntegState)
    (hWF : env.WellFormed) (hY : s.advanced.y ≠ []) (hI : s.interp.y ≠ []) :
    (stepIter env cfg rT schedE tMax mode s).state.advanced.y ≠ [] ∧
    (stepIter env cfg rT schedE tMax mode s).state.interp.y ≠ [] := by
  have hY1 := acquireStep_y_ne env tMax mode s hWF hY
  have hI1 := acquireStep_interp env tMax mode s
  rcases hA : acquireStep env tMax mode s with ⟨tret, res, s1⟩
  rw [hA] at hY1 hI1
  simp only at hY1 hI1
  have hI1y : s1.interp.y ≠ [] := by
    rw [hI1]
    exact hI
  simp only [stepIter, hA]
  rw [processStep]
  by_cases h1 : res = CPodes.TooMuchWork
  · rw [if_pos h1]
    exact ⟨hY1, hI1y⟩
  rw [if_neg h1]
  by_cases h2 : res < 0
  · rw [if_pos h2]
    exact ⟨hY1, hI1y⟩
  rw [if_neg h2]
  have hph := interpPhase_y_ne env tMax tret (commitTime tret s1) hWF hY1 hI1y
  exact resolveReturn_y_ne env cfg rT schedE tret res _ hph.1 hph.2

/-- Inversion for a `ReachedScheduledEvent` return of `resolveReturn` (with
a finite event time): the report condition failed, the event condition
held, and the result state is the rewind record (strict overshoot) or the
plain stash record (exact hit). -/
theorem resolveReturn_event_inv (env : SolverOracle) (cfg : Config)
    (rT eT tret : ℚ) (res : Int) (s1 s2 : IntegState)
    (h : resolveReturn env cfg rT (some eT) tret res s1 =
      IterOut.ret SuccessfulStepStatus.ReachedScheduledEvent s2) :
    ¬ (tret ≥ rT ∧ rT ≤ eT) ∧ eT ≤ tret ∧
    ((eT < tret ∧
      s2 = { s1 with savedY := s1.advanced.y,
                     advanced := { s1.advanced with y := s1.interp.y, time := eT },
                     pendingReturnCode := res,
                     stepCommunicationStatus :=
                       StepCommunicationStatus.StepHasBeenReturnedWithEvent }) ∨
     (¬ eT < tret ∧
      s2 = { s1 with pendingReturnCode := res,
                     stepCommunicationStatus :=
                       StepCommunicationStatus.StepHasBeenReturnedWithEvent })) := by
  rw [resolveReturn] at h
  split_ifs at h with h1 h2 h3 h4 h5 h6
  · exact absurd h (by simp)
  · injection h with hst hs
    exact ⟨h1, (qge_some tret eT).mp h2, Or.inl ⟨(qgt_some tret eT).mp h3, hs.symm⟩⟩
  · injection h with hst hs
    refine ⟨h1, (qge_some tret eT).mp h2, Or.inr ⟨?_, hs.symm⟩⟩
    exact fun hc => h3 ((qgt_some tret eT).mpr hc)
  all_goals exact absurd h (by simp)

/-- Core loop lemma for the overshoot-rewind law: when the stepping loop,
running with the finite scheduled event time `eT` (so ceiling
`min rT eT`), returns `ReachedScheduledEvent` with a stashed returned time
strictly beyond `eT`, the returning iteration took the event-rewind path:
the advanced state sits at `eT` with the dense-output vector interpolated
there, the interpolated-state flag is up, the overshot vector is saved and
the raw result stashed. -/
theorem stepToLoop_event_overshoot (env : SolverOracle) (cfg : Config)
    (rT eT : ℚ) (mode : CPodes.StepMode) (hWF : env.WellFormed) (fuel : ℕ) :
    ∀ s s2 : IntegState, s.advanced.y ≠ [] → s.interp.y ≠ [] →
      stepToLoop env cfg rT (some eT) (min rT eT) mode fuel s =
        StepResult.ok SuccessfulStepStatus.ReachedScheduledEvent s2 →
      eT < s2.previousTimeReturned →
      s2.advanced.time = eT ∧
      s2.useInterpolatedState = true ∧
      s2.interp.time = eT ∧
      s2.interp.y = env.dky s2.nCalls eT ∧
      s2.advanced.y = s2.interp.y ∧
      s2.pendingReturnCode ≠ -1 ∧
      s2.savedY ≠ [] := by
  induction fuel with
  | zero =>
    intro s s2 hY hI hRun hOver
    simp [stepToLoop] at hRun
  | succ fuel ih =>
    intro s s2 hY hI hRun hOver
    have hYI := stepIter_y_ne env cfg rT (some eT) (min rT eT) mode s hWF hY hI
    have hPrev := acquireStep_prevTimeReturned env (min rT eT) mode s
    have hY1 := acquireStep_y_ne env (min rT eT) mode s hWF hY
    rw [stepToLoop] at hRun
    cases hIt : stepIter env cfg rT (some eT) (min rT eT) mode s with
    | fail t s3 =>
      rw [hIt] at hRun
      simp at hRun
    | next s3 =>
      rw [hIt] at hRun
      rw [hIt] at hYI
      simp only [IterOut.state] at hYI
      exact ih s3 s2 hYI.1 hYI.2 hRun hOver
    | ret st s3 =>
      rw [hIt] at hRun
      injection hRun with hst hs3
      subst hst
      subst hs3
      rcases hA : acquireStep env (min rT eT) mode s with ⟨tret, res, s1⟩
      rw [hA] at hPrev hY1
      simp only at hPrev hY1
      simp only [stepIter, hA] at hIt
      rw [processStep] at hIt
      by_cases hc1 : res = CPodes.TooMuchWork
      · rw [if_pos hc1] at hIt
        exact absurd hIt (by simp)
      rw [if_neg hc1] at hIt
      by_cases hc2 : res < 0
      · rw [if_pos hc2] at hIt
        exact absurd hIt (by simp)
      rw [if_neg hc2] at hIt
      obtain ⟨hrep, hev, hcase⟩ :=
        resolveReturn_event_inv env cfg rT eT tret res _ _ hIt
      have hIy : (interpPhase env (min rT eT) tret (commitTime tret s1)).interp.y =
          (interpPhase env (min rT eT) tret (commitTime tret s1)).interp.y := rfl
      rcases hcase with ⟨hstrict, hs2⟩ | ⟨hnstrict, hs2⟩
      · -- the rewind: tret strictly overshot the event time
        have heTrT : eT < rT := by
          by_contra hcon
          push_neg at hcon
          exact hrep ⟨le_trans hcon hev, hcon⟩
        have hmin : min rT eT = eT := min_eq_right heTrT.le
        have hOverMax : tret > min rT eT := by
          rw [hmin]
          exact hstrict
        have hsI : interpPhase env (min rT eT) tret (commitTime tret s1) =
            { commitTime tret s1 with
                useInterpolatedState := true,
                interp := createInterpolatedState env (commitTime tret s1)
                  (min rT eT) } := by
          rw [interpPhase, if_pos hOverMax]
        rw [hsI] at hs2
        refine ⟨?_, ?_, ?_, ?_, ?_, ?_, ?_⟩
        · rw [hs2]
        · rw [hs2]
        · rw [hs2]
          simp [createInterpolatedState, hmin]
        · rw [hs2]
          simp [createInterpolatedState, commitTime, hmin]
        · rw [hs2]
        · rw [hs2]
          simpa [CPodes.TooMuchWork] using hc1
        · rw [hs2]
          simpa [commitTime] using hY1
      · -- no strict overshoot: contradicts the stashed returned time
        have hp : s3.previousTimeReturned = tret := by
          rw [hs2]
          show (interpPhase env (min rT eT) tret
            (commitTime tret s1)).previousTimeReturned = tret
          rw [interpPhase]
          split_ifs <;> simpa [commitTime] using hPrev
        rw [hp] at hOver
        exact absurd hOver hnstrict

/-- C2: Overshoot rewind and resumption.  If a `stepTo` call (positive
scheduled event time, well-formed oracle, nonempty state vectors) returns
`ReachedScheduledEvent` with the stashed raw returned time strictly beyond
the event time, then afterwards the Advanced State's time is exactly the
event time and its vector is the Interpolated State's vector — the dense
output at the event time — while the overshot vector is saved (`savedY`
nonempty) and the raw result stashed (`pendingReturnCode ≠ -1`); and the
next acquisition resumes without any solver call: `acquireStep` on the
result state hands back the stashed time and code and restores the saved
vector, leaving the solver-call count unchanged (visible in the returned
record, which differs only in `pendingReturnCode` and the advanced
vector). -/
theorem stepTo_event_overshoot (env : SolverOracle) (cfg : Config) (fuel : ℕ)
    (rT eT : ℚ) (s s2 : IntegState)
    (hWF : env.WellFormed) (hY : s.advanced.y ≠ []) (hI : s.interp.y ≠ [])
    (hE : 0 < eT)
    (hRun : stepTo env cfg fuel rT eT s =
      StepResult.ok SuccessfulStepStatus.ReachedScheduledEvent s2)
    (hOver : eT < s2.previousTimeReturned) :
    s2.advanced.time = eT ∧
    s2.useInterpolatedState = true ∧
    s2.interp.time = eT ∧
    s2.interp.y = env.dky s2.nCalls eT ∧
    s2.advanced.y = s2.interp.y ∧
    s2.pendingReturnCode ≠ -1 ∧
    s2.savedY ≠ [] ∧
    ∀ tM mo, acquireStep env tM mo s2 =
      (s2.previousTimeReturned, s2.pendingReturnCode,
        { s2 with pendingReturnCode := -1,
                  advanced := { s2.advanced with y := s2.savedY } }) := by
  simp only [stepTo] at hRun
  by_cases hStart : s.startOfContinuousInterval = true
  · rw [if_pos hStart] at hRun
    exact absurd hRun (by simp)
  · rw [if_neg hStart] at hRun
    have hceil : stepCeiling rT eT = min rT eT := by
      rw [stepCeiling, effectiveEventTime_pos hE]
    rw [effectiveEventTime_pos hE, hceil] at hRun
    have h := stepToLoop_event_overshoot env cfg rT eT (chooseStepMode cfg) hWF
      fuel s s2 hY hI hRun hOver
    refine ⟨h.1, h.2.1, h.2.2.1, h.2.2.2.1, h.2.2.2.2.1, h.2.2.2.2.2.1,
      h.2.2.2.2.2.2, fun tM mo => ?_⟩
    exact acquireStep_resume env tM mo s2 h.2.2.2.2.2.1 h.2.2.2.2.2.2

/-- C2 witness: the overshoot-rewind theorem at a concrete run (report
time 5, event time 2, solver overshoots to 3), with the resumption
conclusion instantiated at a concrete later ceiling and mode. -/
theorem stepTo_event_overshoot_witness :
    C2.s2.advanced.time = 2 ∧
    C2.s2.useInterpolatedState = true ∧
    C2.s2.interp.time = 2 ∧
    C2.s2.interp.y = C2.env.dky C2.s2.nCalls 2 ∧
    C2.s2.advanced.y = C2.s2.interp.y ∧
    C2.s2.pendingReturnCode ≠ -1 ∧
    C2.s2.savedY ≠ [] ∧
    acquireStep C2.env 7 CPodes.StepMode.Normal C2.s2 =
      (C2.s2.previousTimeReturned, C2.s2.pendingReturnCode,
        { C2.s2 with pendingReturnCode := -1,
                     advanced := { C2.s2.advanced with y := C2.s2.savedY } }) := by
  have h := stepTo_event_overshoot C2.env C2.cfg 1 5 2 C2.s C2.s2
    ⟨fun _ _ _ => List.cons_ne_nil _ _, fun _ _ => List.cons_ne_nil _ _⟩
    (List.cons_ne_nil _ _) (List.cons_ne_nil _ _) (by norm_num)
    (by decide) (by decide)
  exact ⟨h.1, h.2.1, h.2.2.1, h.2.2.2.1, h.2.2.2.2.1, h.2.2.2.2.2.1,
    h.2.2.2.2.2.2.1, h.2.2.2.2.2.2.2 7 CPodes.StepMode.Normal⟩

/-- Everything one loop iteration needs to know about the acquisition
phase, given the invariant and solver sanity: the pending record is
consumed, the stashed time matches, the interpolated state / flag /
advanced time are untouched, the acquired time is not below the advanced
time, the recorded step-start time is not beyond the caller-visible time,
sanity is re-established above the acquired time, and a pending resume
hands back a non-sentinel code. -/
theorem acquireStep_facts (env : SolverOracle) (tM : ℚ) (mo : CPodes.StepMode)
    (s : IntegState) (hInv : Inv s)
    (hSane : SaneSteps env s.nCalls (solverFloor s) tM mo) :
    (acquireStep env tM mo s).2.2.pendingReturnCode = -1 ∧
    (acquireStep env tM mo s).2.2.previousTimeReturned = (acquireStep env tM mo s).1 ∧
    (acquireStep env tM mo s).2.2.interp = s.interp ∧
    (acquireStep env tM mo s).2.2.useInterpolatedState = s.useInterpolatedState ∧
    (acquireStep env tM mo s).2.2.advanced.time = s.advanced.time ∧
    s.advanced.time ≤ (acquireStep env tM mo s).1 ∧
    (acquireStep env tM mo s).2.2.previousStartTime ≤ currentTime s ∧
    SaneSteps env (acquireStep env tM mo s).2.2.nCalls (acquireStep env tM mo s).1
      tM mo ∧
    (s.pendingReturnCode = -1 ∨ (acquireStep env tM mo s).2.1 ≠ -1) := by
  obtain ⟨hI1, hI2, hI4, hI3⟩ := hInv
  rw [acquireStep]
  split_ifs with hP hSY
  · -- fresh solver call
    have hFloor : solverFloor s = s.advanced.time := by
      rw [solverFloor, if_pos hP]
    have hflag : s.useInterpolatedState = false := by
      cases hfl : s.useInterpolatedState
      · rfl
      · exact absurd hP (hI1 hfl)
    have hCur : currentTime s = s.advanced.time := by
      rw [currentTime, hflag]
      simp
    refine ⟨hP, rfl, rfl, rfl, rfl, ?_, ?_, ⟨?_, ?_⟩, Or.inl hP⟩
    · have := hSane.1 s.nCalls le_rfl
      rwa [hFloor] at this
    · rw [hCur]
    · intro n hn
      exact hSane.2 s.nCalls n le_rfl (Nat.le_of_succ_le hn)
    · intro m n hm hn
      exact hSane.2 m n (Nat.le_of_succ_le hm) hn
  · -- resume from the pending record, restoring the saved vector
    have hFloor : solverFloor s = s.previousTimeReturned := by
      rw [solverFloor, if_neg hP]
    refine ⟨rfl, rfl, rfl, rfl, rfl, hI2 hP, ?_, ⟨?_, hSane.2⟩, Or.inr hP⟩
    · cases hfl : s.useInterpolatedState
      · rw [currentTime, hfl]
        simpa using hI4
      · rw [currentTime, hfl]
        simpa using (hI3 hfl).1
    · intro n hn
      have := hSane.1 n hn
      rwa [hFloor] at this
  · -- resume with no saved vector
    have hFloor : solverFloor s = s.previousTimeReturned := by
      rw [solverFloor, if_neg hP]
    refine ⟨rfl, rfl, rfl, rfl, rfl, hI2 hP, ?_, ⟨?_, hSane.2⟩, Or.inr hP⟩
    · cases hfl : s.useInterpolatedState
      · rw [currentTime, hfl]
        simpa using hI4
      · rw [currentTime, hfl]
        simpa using (hI3 hfl).1
    · intro n hn
      have := hSane.1 n hn
      rwa [hFloor] at this

/-- A strict event-time qualification implies the non-strict one. -/
theorem qge_of_qgt {a : ℚ} {e : Option ℚ} (h : qgt a e) : qge a e := by
  cases e with
  | none => exact h
  | some b => exact ((qgt_some a b).mp h).le

/-- One loop iteration preserves the invariant and never moves the
caller-visible time backwards; a fall-through iteration additionally stays
at or below the ceiling and re-establishes solver sanity. -/
theorem stepIter_time_invariant (env : SolverOracle) (cfg : Config)
    (rT : ℚ) (schedE : Option ℚ) (tMax : ℚ) (mode : CPodes.StepMode)
    (s : IntegState)
    (hTm : (schedE = none ∧ tMax = rT) ∨
           (∃ sev, schedE = some sev ∧ tMax = min rT sev))
    (hInv : Inv s)
    (hCt : currentTime s ≤ tMax)
    (hSane : SaneSteps env s.nCalls (solverFloor s) tMax mode) :
    (∀ st s2, stepIter env cfg rT schedE tMax mode s = IterOut.ret st s2 →
      currentTime s ≤ currentTime s2 ∧ Inv s2) ∧
    (∀ s2, stepIter env cfg rT schedE tMax mode s = IterOut.next s2 →
      currentTime s ≤ currentTime s2 ∧ Inv s2 ∧
      currentTime s2 ≤ tMax ∧
      SaneSteps env s2.nCalls (solverFloor s2) tMax mode) := by
  have hF := acquireStep_facts env tMax mode s hInv hSane
  rcases hA : acquireStep env tMax mode s with ⟨tret, res, s1⟩
  rw [hA] at hF
  simp only at hF
  obtain ⟨f1, f2, f3, f4, f5, f6, f7, f8, f10⟩ := hF
  have hCadv : currentTime s ≤ s.advanced.time := by
    cases hfl : s.useInterpolatedState
    · rw [currentTime, hfl]
      simp
    · rw [currentTime, hfl]
      simpa using (hInv.2.2.2 hfl).2
  have hCtret : currentTime s ≤ tret := le_trans hCadv f6
  have hNoOverflow : ¬ (tret ≥ rT ∧ qle rT schedE) → ¬ qgt tret schedE →
      tret ≤ tMax := by
    intro h1 h2
    rcases hTm with ⟨hE0, hT0⟩ | ⟨sev, hE0, hT0⟩
    · subst hT0
      rw [hE0] at h1
      by_contra hlt
      push_neg at hlt
      exact h1 ⟨hlt.le, trivial⟩
    · subst hT0
      rw [hE0] at h1 h2
      by_contra hlt
      push_neg at hlt
      rcases le_or_lt rT sev with hc | hc
      · rw [min_eq_left hc] at hlt
        exact h1 ⟨hlt.le, (qle_some _ _).mpr hc⟩
      · rw [min_eq_right hc.le] at hlt
        exact h2 ((qgt_some _ _).mpr hlt)
  simp only [stepIter, hA]
  rw [processStep]
  by_cases hc1 : res = CPodes.TooMuchWork
  · -- step-limit return: only reachable on a fresh call, flag is down
    rw [if_pos hc1]
    have hPz : s.pendingReturnCode = -1 := by
      rcases f10 with h | h
      · exact h
      · exact absurd hc1 h
    have hflag : s.useInterpolatedState = false := by
      cases hfl : s.useInterpolatedState
      · rfl
      · exact absurd hPz (hInv.1 hfl)
    have hflag1 : s1.useInterpolatedState = false := f4.trans hflag
    constructor
    · intro st s2 h
      injection h with h1 h2
      subst h2
      constructor
      · rw [currentTime]
        simp only [commitTime, hflag1]
        simpa using hCtret
      · refine ⟨?_, ?_, ?_, ?_⟩
        · intro hfl
          exact absurd (hflag1.symm.trans hfl) (by simp)
        · intro hp
          exact absurd f1 hp
        · exact le_trans f7 hCtret
        · intro hfl
          exact absurd (hflag1.symm.trans hfl) (by simp)
    · intro s2 h
      exact absurd h (by simp)
  rw [if_neg hc1]
  by_cases hc2 : res < 0
  · -- fatal error: the iteration raises, neither a return nor a fall-through
    rw [if_pos hc2]
    exact ⟨fun st s2 h => absurd h (by simp), fun s2 h => absurd h (by simp)⟩
  rw [if_neg hc2]
  have hres1 : res ≠ -1 := hc1
  rw [resolveReturn]
  by_cases hrep : tret ≥ rT ∧ qle rT schedE
  · -- report-time return
    rw [if_pos hrep]
    constructor
    · intro st s2 h
      injection h with h1 h2
      subst h2
      by_cases hOv : tret > tMax
      · have hs1x : interpPhase env tMax tret (commitTime tret s1) =
            { commitTime tret s1 with
                useInterpolatedState := true,
                interp := createInterpolatedState env (commitTime tret s1) tMax } := by
          rw [interpPhase, if_pos hOv]
        rw [hs1x]
        constructor
        · rw [currentTime]
          simp only [createInterpolatedState]
          simpa using hCt
        · refine ⟨?_, ?_, ?_, ?_⟩
          · intro hfl
            exact hres1
          · intro hp
            show tret ≤ s1.previousTimeReturned
            rw [f2]
          · exact le_trans f7 hCtret
          · intro hfl
            simp only [commitTime, createInterpolatedState]
            exact ⟨le_trans f7 hCt, le_of_lt hOv⟩
      · have hs1x : interpPhase env tMax tret (commitTime tret s1) =
            { commitTime tret s1 with useInterpolatedState := false } := by
          rw [interpPhase, if_neg hOv]
        rw [hs1x]
        constructor
        · rw [currentTime]
          simpa using hCtret
        · refine ⟨?_, ?_, ?_, ?_⟩
          · intro hfl
            exact hres1
          · intro hp
            show tret ≤ s1.previousTimeReturned
            rw [f2]
          · exact le_trans f7 hCtret
          · intro hfl
            exact absurd hfl (by simp)
    · intro s2 h
      exact absurd h (by simp)
  rw [if_neg hrep]
  by_cases hqge : qge tret schedE
  · -- scheduled-event return; the event time is finite here
    rw [if_pos hqge]
    rcases hTm with ⟨hE0, hT0⟩ | ⟨sev, hE0, hT0⟩
    · rw [hE0] at hqge
      exact absurd hqge (qge_none tret)
    subst hT0
    rw [hE0] at hqge hrep ⊢
    have hsev1 : sev ≤ tret := (qge_some tret sev).mp hqge
    have hsevrT : sev < rT := by
      by_contra hcon
      push_neg at hcon
      exact hrep ⟨le_trans hcon hsev1, (qle_some rT sev).mpr hcon⟩
    have hminT : min rT sev = sev := min_eq_right hsevrT.le
    by_cases hqgt : qgt tret (some sev)
    · -- strict overshoot: rewind to the event time
      rw [if_pos hqgt]
      have hsev2 : sev < tret := (qgt_some tret sev).mp hqgt
      have hOv : tret > min rT sev := by
        rw [hminT]
        exact hsev2
      constructor
      · intro st s2 h
        injection h with h1 h2
        subst h2
        have hs1x : interpPhase env (min rT sev) tret (commitTime tret s1) =
            { commitTime tret s1 with
                useInterpolatedState := true,
                interp := createInterpolatedState env (commitTime tret s1)
                  (min rT sev) } := by
          rw [interpPhase, if_pos hOv]
        rw [hs1x]
        constructor
        · rw [currentTime]
          simp only [createInterpolatedState]
          simpa [hminT] using hCt
        · refine ⟨?_, ?_, ?_, ?_⟩
          · intro hfl
            exact hres1
          · intro hp
            show sev ≤ s1.previousTimeReturned
            rw [f2]
            exact hsev1
          · simp only [commitTime, createInterpolatedState]
            show s1.previousStartTime ≤ sev
            exact le_trans f7 (by simpa [hminT] using hCt)
          · intro hfl
            simp only [commitTime, createInterpolatedState]
            constructor
            · show s1.previousStartTime ≤ min rT sev
              exact le_trans f7 (by simpa using hCt)
            · show min rT sev ≤ sev
              exact min_le_right rT sev
      · intro s2 h
        exact absurd h (by simp)
    · -- exact hit: the returned time equals the event time
      rw [if_neg hqgt]
      have hle : tret ≤ min rT sev := hNoOverflow (by rwa [hE0]) (by rwa [hE0])
      have hs1x : interpPhase env (min rT sev) tret (commitTime tret s1) =
          { commitTime tret s1 with useInterpolatedState := false } := by
        rw [interpPhase, if_neg (not_lt.mpr hle)]
      constructor
      · intro st s2 h
        injection h with h1 h2
        subst h2
        rw [hs1x]
        constructor
        · rw [currentTime]
          simpa using hCtret
        · refine ⟨?_, ?_, ?_, ?_⟩
          · intro hfl
            exact hres1
          · intro hp
            show tret ≤ s1.previousTimeReturned
            rw [f2]
          · exact le_trans f7 hCtret
          · intro hfl
            exact absurd hfl (by simp)
      · intro s2 h
        exact absurd h (by simp)
  rw [if_neg hqge]
  have hle : tret ≤ tMax :=
    hNoOverflow hrep (fun h => hqge (qge_of_qgt h))
  have hs1x : interpPhase env tMax tret (commitTime tret s1) =
      { commitTime tret s1 with useInterpolatedState := false } := by
    rw [interpPhase, if_neg (not_lt.mpr hle)]
  have hInv2 : Inv { commitTime tret s1 with useInterpolatedState := false } := by
    refine ⟨?_, ?_, ?_, ?_⟩
    · intro hfl
      exact absurd hfl (by simp)
    · intro hp
      exact absurd f1 hp
    · exact le_trans f7 hCtret
    · intro hfl
      exact absurd hfl (by simp)
  by_cases hts : res = CPodes.TstopReturn
  · rw [if_pos hts]
    constructor
    · intro st s2 h
      injection h with h1 h2
      subst h2
      rw [hs1x]
      refine ⟨by rw [currentTime]; simpa using hCtret, ?_, ?_, ?_, ?_⟩
      · intro hfl
        exact absurd hfl (by simp)
      · intro hp
        exact absurd f1 hp
      · exact le_trans f7 hCtret
      · intro hfl
        exact absurd hfl (by simp)
    · intro s2 h
      exact absurd h (by simp)
  rw [if_neg hts]
  by_cases hroot : res = CPodes.RootReturn
  · rw [if_pos hroot]
    constructor
    · intro st s2 h
      injection h with h1 h2
      subst h2
      rw [hs1x]
      refine ⟨by rw [currentTime]; simpa using hCtret, ?_, ?_, ?_, ?_⟩
      · intro hfl
        exact absurd hfl (by simp)
      · intro hp
        exact absurd f1 hp
      · exact le_trans f7 hCtret
      · intro hfl
        exact absurd hfl (by simp)
    · intro s2 h
      exact absurd h (by simp)
  rw [if_neg hroot]
  by_cases hev1 : cfg.userReturnEveryInternalStep = 1
  · rw [if_pos hev1]
    constructor
    · intro st s2 h
      injection h with h1 h2
      subst h2
      rw [hs1x]
      refine ⟨by rw [currentTime]; simpa using hCtret, ?_, ?_, ?_, ?_⟩
      · intro hfl
        exact absurd hfl (by simp)
      · intro hp
        exact absurd f1 hp
      · exact le_trans f7 hCtret
      · intro hfl
        exact absurd hfl (by simp)
    · intro s2 h
      exact absurd h (by simp)
  rw [if_neg hev1]
  constructor
  · intro st s2 h
    exact absurd h (by simp)
  · intro s2 h
    injection h with h1
    subst h1
    rw [hs1x]
    refine ⟨by rw [currentTime]; simpa using hCtret, hInv2, ?_, ?_⟩
    · rw [currentTime]
      simpa using hle
    · have hfl : solverFloor { commitTime tret s1 with
          useInterpolatedState := false } = tret := by
        rw [solverFloor]
        simp only [commitTime]
        rw [if_pos f1]
      rw [hfl]
      exact f8

/-- The stepping loop preserves the invariant and the caller-visible time
ordering for every successful return. -/
theorem stepToLoop_time_invariant (env : SolverOracle) (cfg : Config)
    (rT : ℚ) (schedE : Option ℚ) (tMax : ℚ) (mode : CPodes.StepMode)
    (hTm : (schedE = none ∧ tMax = rT) ∨
           (∃ sev, schedE = some sev ∧ tMax = min rT sev)) (fuel : ℕ) :
    ∀ (s : IntegState) (st : SuccessfulStepStatus) (s2 : IntegState),
      Inv s → currentTime s ≤ tMax →
      SaneSteps env s.nCalls (solverFloor s) tMax mode →
      stepToLoop env cfg rT schedE tMax mode fuel s = StepResult.ok st s2 →
      currentTime s ≤ currentTime s2 ∧ Inv s2 := by
  induction fuel with
  | zero =>
    intro s st s2 _ _ _ hRun
    simp [stepToLoop] at hRun
  | succ fuel ih =>
    intro s st s2 hInv hCt hSane hRun
    have hit := stepIter_time_invariant env cfg rT schedE tMax mode s hTm hInv
      hCt hSane
    rw [stepToLoop] at hRun
    cases hIt : stepIter env cfg rT schedE tMax mode s with
    | ret st1 s3 =>
      rw [hIt] at hRun
      injection hRun with h1 h2
      subst h2
      exact hit.1 st1 s3 hIt
    | fail t s3 =>
      rw [hIt] at hRun
      simp at hRun
    | next s3 =>
      rw [hIt] at hRun
      obtain ⟨hmono, hInv3, hCt3, hSane3⟩ := hit.2 s3 hIt
      have hrec := ih s3 st s2 hInv3 hCt3 hSane3 hRun
      exact ⟨le_trans hmono hrec.1, hrec.2⟩

/-- C7 (amended): Per-call time invariant.  Under the call preconditions
(report time and any positive scheduled event time not before the
caller-visible current time) and solver sanity (returned times bounded
below by the current floor and non-decreasing in the call index), every
successful `stepTo` call leaves the caller-visible time (`currentTime`:
interpolated time when the flag is active, advanced time otherwise)
non-decreasing, and preserves the invariant `Inv` — in particular,
whenever the interpolated-state flag is active, the Interpolated State's
time lies inclusively between the last solver step's start time and the
Advanced State's time.  (The raw Advanced State time itself may decrease
across calls, and the bounds can be attained with equality; see the
counterexample.) -/
theorem stepTo_time_invariant (env : SolverOracle) (cfg : Config) (fuel : ℕ)
    (rT eT : ℚ) (s : IntegState) (st : SuccessfulStepStatus) (s2 : IntegState)
    (hInv : Inv s)
    (hRT : currentTime s ≤ rT)
    (hET : eT ≤ 0 ∨ currentTime s ≤ eT)
    (hSane : SaneSteps env s.nCalls (solverFloor s) (stepCeiling rT eT)
      (chooseStepMode cfg))
    (hRun : stepTo env cfg fuel rT eT s = StepResult.ok st s2) :
    currentTime s ≤ currentTime s2 ∧ Inv s2 := by
  simp only [stepTo] at hRun
  by_cases hStart : s.startOfContinuousInterval = true
  · rw [if_pos hStart] at hRun
    injection hRun with h1 h2
    subst h2
    exact ⟨le_refl _, hInv⟩
  · rw [if_neg hStart] at hRun
    have hTm : (effectiveEventTime eT = none ∧ stepCeiling rT eT = rT) ∨
        (∃ sev, effectiveEventTime eT = some sev ∧
          stepCeiling rT eT = min rT sev) := by
      by_cases h : eT ≤ 0
      · exact Or.inl ⟨effectiveEventTime_nonpos h,
          by rw [stepCeiling, effectiveEventTime_nonpos h]⟩
      · exact Or.inr ⟨eT, effectiveEventTime_pos (not_le.mp h),
          by rw [stepCeiling, effectiveEventTime_pos (not_le.mp h)]⟩
    have hCt : currentTime s ≤ stepCeiling rT eT := by
      by_cases h : eT ≤ 0
      · rw [stepCeiling, effectiveEventTime_nonpos h]
        exact hRT
      · rw [stepCeiling, effectiveEventTime_pos (not_le.mp h)]
        exact le_min hRT (hET.resolve_left h)
    exact stepToLoop_time_invariant env cfg rT (effectiveEventTime eT)
      (stepCeiling rT eT) (chooseStepMode cfg) hTm fuel s st s2 hInv hCt hSane hRun

/-- C7 counterexample: a two-call trace of `stepTo` under a sane solver
and legal call arguments.  Call 1 (report time 2, no event) overshoots to
5 and returns `ReachedReportTime` with the Advanced State at time 5; call
2 (report time 10, scheduled event 3 — legal, since the caller-visible
time was 2) resumes the pending step and rewinds the Advanced State to 3.
So the Advanced State's time decreases from 5 to 3 across the sequence,
and on return the active Interpolated State's time equals both the
previous step's start time bound side and the Advanced State's time (3),
refuting both the non-decreasing-advanced-time part and the
strictly-between part of the claim. -/
theorem stepTo_time_invariant_cex :
    stepTo C7.env C7.cfg 1 2 0 C7.s =
      StepResult.ok SuccessfulStepStatus.ReachedReportTime C7.s1 ∧
    stepTo C7.env C7.cfg 1 10 3 C7.s1 =
      StepResult.ok SuccessfulStepStatus.ReachedScheduledEvent C7.s2 ∧
    C7.s1.advanced.time = 5 ∧
    C7.s2.advanced.time = 3 ∧
    C7.s2.useInterpolatedState = true ∧
    C7.s2.interp.time = C7.s2.advanced.time := by
  exact ⟨by decide, by decide, rfl, rfl, rfl, rfl⟩

/-- C7 witness: the amended per-call invariant theorem applied at the
concrete first call of the counterexample trace. -/
theorem stepTo_time_invariant_witness :
    currentTime C7.s ≤ currentTime C7.s1 ∧ Inv C7.s1 :=
  stepTo_time_invariant C7.env C7.cfg 1 2 0 C7.s
    SuccessfulStepStatus.ReachedReportTime C7.s1
    (by refine ⟨?_, ?_, ?_, ?_⟩ <;> decide)
    (by decide) (Or.inl (by decide))
    ⟨fun n hn => by show (0:ℚ) ≤ 5; norm_num, fun m n hm hn => le_refl _⟩
    (by decide)

end CPodesIntegrator
